import Mathlib

/-!
Verification development for the Pluto scripting-language interpreter
(lexer `src/lexer.js`, environment `src/environment.js`, builtins
`src/builtins.js`, interpreter `src/interpreter.js`).

The JavaScript source is shallowly embedded:
* JS numbers are modelled as `ℚ` (all programs examined here compute with
  exactly representable decimal values; IEEE-754 rounding, `NaN` and
  `Infinity` lie outside the numeric model and are noted where a coercion
  could produce them).
* The mutable `Environment` chain is modelled as a heap of frames inside an
  explicit `State`; a frame id is an index into `State.frames`.  New frames
  are appended at the end, so in every reachable state a frame's parent
  pointer is a strictly smaller index; chain walks are therefore written
  with an explicit step budget of `fid + 1`, which is always sufficient for
  reachable states.
* `evaluateActionDeclaration` overrides `define`/`set` on the action's own
  environment instance.  This is modelled by an optional `ActionCtx` stored
  on the frame: any walk or direct call that dispatches `define`/`set` on a
  frame carrying an `ActionCtx` runs the overridden behaviour (record the
  name unless it is a parameter, then define locally in that frame).
* Runaway recursion through action calls aborts with `Err.stackOverflow`,
  modelling exhaustion of the host's call stack (a documented non-goal of
  the source: no tail calls, recursion bounded by the host stack).
-/

namespace Pluto

/-- Literal payloads produced by the parser (`Literal` AST nodes carry only
numbers, strings and booleans). -/
inductive Prim where
  | num (q : ℚ)
  | str (s : String)
  | bool (b : Bool)

/-- AST node kinds of `src/interpreter.js`'s dispatch.  An action body is
stored as its list of statements (the interpreter only ever reads
`node.body.statements` of the `BlockStatement` produced by the parser).
`MemberExpression` is split into its `computed` and dotted forms. -/
inductive Node where
  | program (stmts : List Node)
  | nodeDecl (name : String) (value : Node)
  | actionDecl (name : String) (params : List String) (body : List Node)
  | check (cond : Node) (conseq : Node) (alt : Option Node)
  | each (vname : String) (iterable : Node) (body : Node)
  | asStmt (cond : Node) (body : Node)
  | block (stmts : List Node)
  | binary (op : String) (left : Node) (right : Node)
  | unary (op : String) (argument : Node)
  | call (callee : Node) (args : List Node)
  | memberDot (object : Node) (name : String)
  | memberIndex (object : Node) (property : Node)
  | arrayLit (elements : List Node)
  | ident (name : String)
  | lit (v : Prim)

/-- Runtime values.  `absent` models both JS `null` and `undefined` (the
interpreter treats them identically in `isTruthy`, and the spec names the
merged sentinel `Absent`).  A `closure` captures parameter names, the body
statements and the defining environment's frame id; a `builtin` is an entry
of the fixed builtin table, identified by name. -/
inductive Value where
  | num (q : ℚ)
  | str (s : String)
  | bool (b : Bool)
  | arr (elems : List Value)
  | record (fields : List (String × Value))
  | closure (params : List String) (body : List Node) (env : Nat)
  | builtin (name : String)
  | absent

/-- Errors thrown by the interpreter.  Each constructor corresponds to one
`throw new Error(...)` site of the source (the host reports them all as
`Error` with distinct messages); `stackOverflow` models host-stack
exhaustion on runaway recursion, `hostError` models host `TypeError`s on
paths outside the language (e.g. spreading a non-array). -/
inductive Err where
  | undefinedVariable (name : String)
  | eachRequiresArray
  | maxIterations
  | notAFunction (name : String)
  | unknownBinaryOp (op : String)
  | unknownUnaryOp (op : String)
  | hostError (msg : String)
  | stackOverflow
  deriving DecidableEq

/-- Bookkeeping of `evaluateActionDeclaration`'s overridden `define`/`set`:
the action's parameter list and the ordered set `assignedVars` of local
names recorded so far. -/
structure ActionCtx where
  params : List String
  assigned : List String

/-- One `Environment` instance: its own `variables` map (a JS `Map`, i.e. an
insertion-ordered association list), the parent link, and the optional
action-call bookkeeping installed by `evaluateActionDeclaration`. -/
structure Frame where
  vars : List (String × Value)
  parent : Option Nat
  ctx : Option ActionCtx

/-- Interpreter state: the heap of environment frames (frame 0 is the global
environment) and the console output, one entry per `console.log` call. -/
structure State where
  frames : List Frame
  output : List (List Value)

/-- JS `Map.prototype.set`: update in place if the key exists (keeping its
position), otherwise append at the end. -/
def mapSet : List (String × Value) → String → Value → List (String × Value)
  | [], n, v => [(n, v)]
  | (k, w) :: rest, n, v =>
      if k = n then (k, v) :: rest else (k, w) :: mapSet rest n v

/-- JS `Map.prototype.get` (first — and only — binding of the key). -/
def mapGet : List (String × Value) → String → Option Value
  | [], _ => none
  | (k, w) :: rest, n => if k = n then some w else mapGet rest n

/-- JS `Map.prototype.has`. -/
def mapHas (m : List (String × Value)) (n : String) : Bool :=
  (mapGet m n).isSome

/-- JS `Set.prototype.add`: append if not yet present (insertion order is
preserved, re-adding does not move an element). -/
def addOnce (l : List String) (n : String) : List String :=
  if n ∈ l then l else l ++ [n]

/-- Read a frame of the heap (total: out-of-range reads, which never occur
in reachable states, yield an empty root frame). -/
def getFrame (st : State) (fid : Nat) : Frame :=
  st.frames.getD fid ⟨[], none, none⟩

/-- Replace a frame of the heap. -/
def setFrame (st : State) (fid : Nat) (f : Frame) : State :=
  { st with frames := st.frames.set fid f }

/-- `Environment.define`: create/overwrite a binding in the local frame
only (the raw class method, without the action override). -/
def frameDefine (st : State) (fid : Nat) (name : String) (v : Value) : State :=
  setFrame st fid { getFrame st fid with vars := mapSet (getFrame st fid).vars name v }

/-- The overridden `define`/`set` body installed on an action's environment:
record the name into `assignedVars` unless it is a parameter, then run the
original `define` on the action frame. -/
def actionFrameAssign (st : State) (fid : Nat) (ctx : ActionCtx)
    (name : String) (v : Value) : State :=
  let ctx' := if name ∈ ctx.params then ctx
              else { ctx with assigned := addOnce ctx.assigned name }
  let f := getFrame st fid
  setFrame st fid { f with vars := mapSet f.vars name v, ctx := some ctx' }

/-- Dynamic dispatch of `env.define(name, value)`: an action environment runs
the override, every other frame runs the class method. -/
def envDefine (st : State) (fid : Nat) (name : String) (v : Value) : State :=
  match (getFrame st fid).ctx with
  | some ctx => actionFrameAssign st fid ctx name v
  | none => frameDefine st fid name v

/-- `Environment.get` walk with an explicit step budget (see the header
note; a budget of `fid + 1` is sufficient in every reachable state). -/
def envGetAux (st : State) : Nat → Nat → String → Except Err Value
  | 0, _, name => .error (.undefinedVariable name)
  | gas + 1, fid, name =>
      match mapGet (getFrame st fid).vars name with
      | some v => .ok v
      | none =>
          match (getFrame st fid).parent with
          | some p => envGetAux st gas p name
          | none => .error (.undefinedVariable name)

/-- `Environment.get`: nearest binding walking local → root, else the
"Undefined variable" error. -/
def envGet (st : State) (fid : Nat) (name : String) : Except Err Value :=
  envGetAux st (fid + 1) fid name

/-- `Environment.set` walk with dynamic dispatch: the walk proceeds through
`this.parent.set(...)`, so reaching a frame that carries the action override
runs the overridden body (which always defines locally) instead of
continuing the walk. -/
def envSetAux (st : State) : Nat → Nat → String → Value → Except Err State
  | 0, _, name, _ => .error (.undefinedVariable name)
  | gas + 1, fid, name, v =>
      match (getFrame st fid).ctx with
      | some ctx => .ok (actionFrameAssign st fid ctx name v)
      | none =>
          if mapHas (getFrame st fid).vars name then .ok (frameDefine st fid name v)
          else
            match (getFrame st fid).parent with
            | some p => envSetAux st gas p name v
            | none => .error (.undefinedVariable name)

/-- `env.set(name, value)` dispatched on frame `fid`. -/
def envSet (st : State) (fid : Nat) (name : String) (v : Value) : Except Err State :=
  envSetAux st (fid + 1) fid name v

/-- `Environment.has` walk. -/
def envHasAux (st : State) : Nat → Nat → String → Bool
  | 0, _, _ => false
  | gas + 1, fid, name =>
      mapHas (getFrame st fid).vars name ||
        match (getFrame st fid).parent with
        | some p => envHasAux st gas p name
        | none => false

/-- `Environment.has`: existence check across the whole chain. -/
def envHas (st : State) (fid : Nat) (name : String) : Bool :=
  envHasAux st (fid + 1) fid name

/-- `evaluateNodeDeclaration`'s assignment policy, applied to an already
evaluated value: update in place if the name is local (a direct
`env.variables.set`, bypassing any override), else `env.set` if some
ancestor has it, else `env.define`. -/
def nodeAssign (st : State) (env : Nat) (name : String) (v : Value) :
    Except Err State :=
  if mapHas (getFrame st env).vars name then .ok (frameDefine st env name v)
  else
    match (getFrame st env).parent with
    | some p =>
        if envHas st p name then envSet st env name v
        else .ok (envDefine st env name v)
    | none => .ok (envDefine st env name v)

/-- `Interpreter.isTruthy`: `null`/`undefined` false, booleans themselves,
numbers false exactly at zero, strings false exactly when empty, everything
else (arrays, records, callables) true. -/
def isTruthy : Value → Bool
  | .absent => false
  | .bool b => b
  | .num q => q != 0
  | .str s => decide (0 < s.length)
  | _ => true

/-- Rendering of a JS number as a string.  The host's shortest-roundtrip
double formatting is abstracted (no claim exercises number→string
coercion); integers render exactly. -/
def numToString (q : ℚ) : String :=
  if q.den = 1 then toString q.num else toString q.num ++ "/" ++ toString q.den

/-- JS `ToString`.  Arrays render as the comma-join of their elements
(`Array.prototype.toString`), plain objects as `"[object Object]"`,
functions as an abstracted `"function"` placeholder. -/
def jsToString : Value → String
  | .num q => numToString q
  | .str s => s
  | .bool b => if b then "true" else "false"
  | .absent => "null"
  | .record _ => "[object Object]"
  | .closure _ _ _ => "function"
  | .builtin _ => "function"
  | .arr l => String.intercalate "," (l.attach.map fun x => jsToString x.1)
decreasing_by
  have := List.sizeOf_lt_of_mem x.2
  simp only [Value.arr.sizeOf_spec]
  omega

/-- JS `ToNumber` on primitives.  `Number(undefined) = NaN` and numeric
string parsing lie outside the ℚ model and are abstracted to 0 (no claim
exercises them). -/
def jsToNumber : Value → ℚ
  | .num q => q
  | .bool b => if b then 1 else 0
  | _ => 0

/-- JS `ToPrimitive` with default hint: objects (arrays, records,
functions) are converted through their `toString`. -/
def toPrimitive : Value → Value
  | .arr l => .str (jsToString (.arr l))
  | .record f => .str (jsToString (.record f))
  | .closure p b e => .str (jsToString (.closure p b e))
  | .builtin n => .str (jsToString (.builtin n))
  | v => v

/-- JS `+`: `ToPrimitive` both operands, concatenate if either is a string,
otherwise numeric addition. -/
def jsAdd (l r : Value) : Value :=
  match toPrimitive l, toPrimitive r with
  | .str s, .str t => .str (s ++ t)
  | .str s, p => .str (s ++ jsToString p)
  | p, .str s => .str (jsToString p ++ s)
  | p1, p2 => .num (jsToNumber p1 + jsToNumber p2)

/-- Truncation toward zero (JS `ToIntegerOrInfinity` on a finite value). -/
def truncQ (q : ℚ) : ℤ :=
  if q < 0 then ⌈q⌉ else ⌊q⌋

/-- JS `%` (remainder with the sign of the dividend); division by zero
yields `NaN` in JS, abstracted to 0 here. -/
def jsRem (a b : ℚ) : ℚ :=
  if b = 0 then 0 else a - b * (truncQ (a / b) : ℚ)

/-- JS `===`: equal primitives of equal type.  Arrays, records and
functions compare by reference in JS; two values reached through distinct
evaluations are distinct references, which is abstracted here as `false`
(no claim exercises composite equality). -/
def strictEq : Value → Value → Bool
  | .num a, .num b => a == b
  | .str a, .str b => a == b
  | .bool a, .bool b => a == b
  | .absent, .absent => true
  | _, _ => false

/-- JS `<` as used by the source: numeric order on numbers, lexicographic
order on strings; other combinations (which go through host coercion and
mostly yield `false` via `NaN`) are abstracted to `false`. -/
def jsLt : Value → Value → Bool
  | .num a, .num b => a < b
  | .str a, .str b => a < b
  | _, _ => false

/-- JS `<=` under the same abstraction as `jsLt`. -/
def jsLe : Value → Value → Bool
  | .num a, .num b => a ≤ b
  | .str a, .str b => a ≤ b
  | _, _ => false

/-- The `switch (node.operator)` of `evaluateBinaryExpression`, applied to
the two already-evaluated operand values. -/
def applyBinaryOp (op : String) (l r : Value) : Except Err Value :=
  match op with
  | "+" => .ok (jsAdd l r)
  | "-" => .ok (.num (jsToNumber (toPrimitive l) - jsToNumber (toPrimitive r)))
  | "*" => .ok (.num (jsToNumber (toPrimitive l) * jsToNumber (toPrimitive r)))
  | "/" => .ok (.num (jsToNumber (toPrimitive l) / jsToNumber (toPrimitive r)))
  | "%" => .ok (.num (jsRem (jsToNumber (toPrimitive l)) (jsToNumber (toPrimitive r))))
  | "==" => .ok (.bool (strictEq l r))
  | "!=" => .ok (.bool (!strictEq l r))
  | "<" => .ok (.bool (jsLt l r))
  | ">" => .ok (.bool (jsLt r l))
  | "<=" => .ok (.bool (jsLe l r))
  | ">=" => .ok (.bool (jsLe r l))
  | "&&" => .ok (.bool (isTruthy l && isTruthy r))
  | "||" => .ok (.bool (isTruthy l || isTruthy r))
  | _ => .error (.unknownBinaryOp op)

/-- The `switch` of `evaluateUnaryExpression`. -/
def applyUnaryOp (op : String) (v : Value) : Except Err Value :=
  match op with
  | "-" => .ok (.num (-(jsToNumber (toPrimitive v))))
  | "!" => .ok (.bool (!isTruthy v))
  | _ => .error (.unknownUnaryOp op)

/-- Dotted/string-keyed property read (`object[name]`).  A missing key
yields `undefined` (`absent`); reading from `null`/`undefined` throws in
the host.  Own properties of arrays and strings other than `length`
(methods etc.) are abstracted to `absent`. -/
def memberGet (object : Value) (key : String) : Except Err Value :=
  match object with
  | .record fields => .ok ((mapGet fields key).getD .absent)
  | .arr l => if key = "length" then .ok (.num l.length) else .ok .absent
  | .str s => if key = "length" then .ok (.num s.length) else .ok .absent
  | .absent => .error (.hostError "Cannot read properties of null")
  | _ => .ok .absent

/-- Computed property read (`object[property]`): an integral numeric key
indexes arrays and strings (out of range yields `undefined`), any other key
is coerced to a string. -/
def memberGetComputed (object prop : Value) : Except Err Value :=
  match prop with
  | .num q =>
      if q.den = 1 ∧ 0 ≤ q.num then
        match object with
        | .arr l => .ok ((l.get? q.num.toNat).getD .absent)
        | .str s =>
            .ok (((s.toList.get? q.num.toNat).map fun c => Value.str (String.mk [c])).getD .absent)
        | .absent => .error (.hostError "Cannot read properties of null")
        | _ => .ok .absent
      else
        match object with
        | .absent => .error (.hostError "Cannot read properties of null")
        | _ => .ok .absent
  | _ => memberGet object (jsToString prop)

/-- First occurrence split: `some (before, after)` around the first
occurrence of `pat`, `none` if absent (an empty pattern matches at the
front, as in JS). -/
def splitFirst : List Char → List Char → Option (List Char × List Char)
  | [], pat => if pat = [] then some ([], []) else none
  | c :: rest, pat =>
      if pat.isPrefixOf (c :: rest) then some ([], (c :: rest).drop pat.length)
      else (splitFirst rest pat).map fun p => (c :: p.1, p.2)

/-- JS `String.prototype.replace` with a string pattern: replaces the first
occurrence only. -/
def jsReplace (s pat repl : String) : String :=
  match splitFirst s.toList pat.toList with
  | some (before, after) => String.mk before ++ repl ++ String.mk after
  | none => s

/-- Index of the first occurrence of `pat`, for JS `indexOf` (`-1` when
absent). -/
def indexOfAux : List Char → List Char → Nat → Option Nat
  | [], pat, i => if pat = [] then some i else none
  | c :: rest, pat, i =>
      if pat.isPrefixOf (c :: rest) then some i else indexOfAux rest pat (i + 1)

/-- JS `String.prototype.indexOf` as a number. -/
def jsIndexOf (s pat : String) : ℚ :=
  match indexOfAux s.toList pat.toList 0 with
  | some i => (i : ℚ)
  | none => -1

/-- Clamp a numeric index into `[0, len]` for `substring` (negative and
`NaN`-like inputs clamp to 0 in JS). -/
def clampIdx (q : ℚ) (len : Nat) : Nat :=
  if q ≤ 0 then 0 else min len (truncQ q).toNat

/-- Relative index resolution of `Array.prototype.slice` (negative counts
from the end). -/
def sliceIdx (q : ℚ) (len : Nat) : Nat :=
  let i := truncQ q
  if i < 0 then (len + i).toNat else min len i.toNat

/-- Stable insertion by JS default-sort key (string comparison): an element
is placed before the first strictly greater key, so equal keys keep their
original order, as JS's stable sort does. -/
def insertByStr (v : Value) : List Value → List Value
  | [] => [v]
  | w :: rest =>
      if jsToString w ≤ jsToString v then w :: insertByStr v rest
      else v :: w :: rest

/-- JS default `Array.prototype.sort` on a copy: stable, ordered by the
elements' string images. -/
def jsSort (l : List Value) : List Value :=
  l.foldl (fun acc v => insertByStr v acc) []

/-- The fixed builtin table of `src/builtins.js`, in its source order. -/
def builtinNames : List String :=
  ["print", "log", "abs", "sqrt", "pow", "min", "max", "random", "floor",
   "ceil", "round", "length", "substring", "indexOf", "toUpperCase",
   "toLowerCase", "split", "trim", "replace", "push", "pop", "slice", "map",
   "filter", "reduce", "join", "reverse", "sort", "sum", "average",
   "minimum", "maximum", "toString", "toNumber", "toBoolean", "isNumber",
   "isString", "isBoolean", "isArray", "isObject"]

/-- `console.log`-backed `print`/`log`: emit the argument list, return the
single argument if exactly one was passed, otherwise the argument array. -/
def printBuiltin (args : List Value) (st : State) : Except Err (Value × State) :=
  .ok (if args.length = 1 then args.headD .absent else .arr args,
       { st with output := st.output ++ [args] })

/-- Argument access for builtins: a missing argument is `undefined`. -/
def argD (args : List Value) (i : Nat) : Value :=
  args.getD i .absent

/-- The builtin implementations.  `callFn` invokes a callable value (needed
by `map`/`filter`/`reduce`).  Abstractions from the host, none of which any
claim exercises: `sqrt` on non-squares, fractional `pow`, `random`, empty
`min`/`max`/`minimum`/`maximum` (host `±Infinity`), `average` of `[]` and
string→number parsing (host `NaN`) all abstract to 0; string operations act
on Lean characters rather than UTF-16 units. -/
def applyBuiltin (callFn : Value → List Value → State → Except Err (Value × State))
    (name : String) (args : List Value) (st : State) :
    Except Err (Value × State) :=
  match name with
  | "print" => printBuiltin args st
  | "log" => printBuiltin args st
  | "abs" => .ok (.num |jsToNumber (argD args 0)|, st)
  | "sqrt" => .ok (.num 0, st)
  | "pow" =>
      let b := jsToNumber (argD args 0)
      let e := jsToNumber (argD args 1)
      .ok (.num (if e.den = 1 then b ^ e.num else 0), st)
  | "min" =>
      match args.map jsToNumber with
      | [] => .ok (.num 0, st)
      | x :: xs => .ok (.num (xs.foldl min x), st)
  | "max" =>
      match args.map jsToNumber with
      | [] => .ok (.num 0, st)
      | x :: xs => .ok (.num (xs.foldl max x), st)
  | "random" => .ok (.num 0, st)
  | "floor" => .ok (.num (⌊jsToNumber (argD args 0)⌋ : ℤ), st)
  | "ceil" => .ok (.num (⌈jsToNumber (argD args 0)⌉ : ℤ), st)
  | "round" => .ok (.num (⌊jsToNumber (argD args 0) + 1/2⌋ : ℤ), st)
  | "length" =>
      match argD args 0 with
      | .arr l => .ok (.num l.length, st)
      | v => .ok (.num (jsToString v).length, st)
  | "substring" =>
      let s := jsToString (argD args 0)
      let a := clampIdx (jsToNumber (argD args 1)) s.length
      let b := match argD args 2 with
               | .absent => s.length
               | v => clampIdx (jsToNumber v) s.length
      let lo := min a b
      let hi := max a b
      .ok (.str (String.mk ((s.toList.drop lo).take (hi - lo))), st)
  | "indexOf" =>
      .ok (.num (jsIndexOf (jsToString (argD args 0)) (jsToString (argD args 1))), st)
  | "toUpperCase" => .ok (.str (jsToString (argD args 0)).toUpper, st)
  | "toLowerCase" => .ok (.str (jsToString (argD args 0)).toLower, st)
  | "split" =>
      let s := jsToString (argD args 0)
      match argD args 1 with
      | .absent => .ok (.arr [.str s], st)
      | sep => .ok (.arr ((s.splitOn (jsToString sep)).map Value.str), st)
  | "trim" => .ok (.str (jsToString (argD args 0)).trim, st)
  | "replace" =>
      .ok (.str (jsReplace (jsToString (argD args 0)) (jsToString (argD args 1))
                  (jsToString (argD args 2))), st)
  | "push" =>
      match args with
      | .arr l :: items => .ok (.arr (l ++ items), st)
      | _ => .error (.hostError "spread of non-array")
  | "pop" =>
      match argD args 0 with
      | .arr l =>
          .ok (.record [("array", .arr l.dropLast), ("item", (l.getLast?).getD .absent)], st)
      | _ => .error (.hostError "spread of non-array")
  | "slice" =>
      match argD args 0 with
      | .arr l =>
          let a := sliceIdx (jsToNumber (argD args 1)) l.length
          let b := match argD args 2 with
                   | .absent => l.length
                   | v => sliceIdx (jsToNumber v) l.length
          .ok (.arr ((l.drop a).take (b - a)), st)
      | _ => .error (.hostError "slice of non-array")
  | "map" =>
      match argD args 0 with
      | .arr l => do
          let r ← l.foldlM
            (fun (acc : List Value × State) x => do
              let (v, st') ← callFn (argD args 1) [x] acc.2
              pure (acc.1 ++ [v], st'))
            ([], st)
          .ok (.arr r.1, r.2)
      | _ => .error (.hostError "map of non-array")
  | "filter" =>
      match argD args 0 with
      | .arr l => do
          let r ← l.foldlM
            (fun (acc : List Value × State) x => do
              let (v, st') ← callFn (argD args 1) [x] acc.2
              pure (if isTruthy v then acc.1 ++ [x] else acc.1, st'))
            ([], st)
          .ok (.arr r.1, r.2)
      | _ => .error (.hostError "filter of non-array")
  | "reduce" =>
      match argD args 0 with
      | .arr l => do
          let r ← l.foldlM
            (fun (acc : Value × State) x => callFn (argD args 1) [acc.1, x] acc.2)
            (argD args 2, st)
          .ok r
      | _ => .error (.hostError "reduce of non-array")
  | "join" =>
      match argD args 0 with
      | .arr l =>
          let sep := match argD args 1 with
                     | .absent => ","
                     | v => jsToString v
          .ok (.str (String.intercalate sep (l.map jsToString)), st)
      | _ => .error (.hostError "join of non-array")
  | "reverse" =>
      match argD args 0 with
      | .arr l => .ok (.arr l.reverse, st)
      | _ => .error (.hostError "spread of non-array")
  | "sort" =>
      match argD args 0 with
      | .arr l => .ok (.arr (jsSort l), st)
      | _ => .error (.hostError "spread of non-array")
  | "sum" =>
      match argD args 0 with
      | .arr l => .ok (l.foldl jsAdd (Value.num 0), st)
      | _ => .error (.hostError "reduce of non-array")
  | "average" =>
      match argD args 0 with
      | .arr l =>
          .ok (.num (jsToNumber (l.foldl jsAdd (Value.num 0)) / (l.length : ℚ)), st)
      | _ => .error (.hostError "reduce of non-array")
  | "minimum" =>
      match argD args 0 with
      | .arr l =>
          match l.map jsToNumber with
          | [] => .ok (.num 0, st)
          | x :: xs => .ok (.num (xs.foldl min x), st)
      | _ => .error (.hostError "spread of non-array")
  | "maximum" =>
      match argD args 0 with
      | .arr l =>
          match l.map jsToNumber with
          | [] => .ok (.num 0, st)
          | x :: xs => .ok (.num (xs.foldl max x), st)
      | _ => .error (.hostError "spread of non-array")
  | "toString" => .ok (.str (jsToString (argD args 0)), st)
  | "toNumber" => .ok (.num (jsToNumber (argD args 0)), st)
  | "toBoolean" => .ok (.bool (isTruthy (argD args 0)), st)
  | "isNumber" =>
      .ok (.bool (match argD args 0 with | .num _ => true | _ => false), st)
  | "isString" =>
      .ok (.bool (match argD args 0 with | .str _ => true | _ => false), st)
  | "isBoolean" =>
      .ok (.bool (match argD args 0 with | .bool _ => true | _ => false), st)
  | "isArray" =>
      .ok (.bool (match argD args 0 with | .arr _ => true | _ => false), st)
  | "isObject" =>
      .ok (.bool (match argD args 0 with | .record _ => true | _ => false), st)
  | _ => .error (.hostError "unknown builtin")

/-- Parameter binding of an action invocation: `define(params[i], args[i])`
in order; a missing argument binds `undefined` (`absent`), extra arguments
are never read.  Runs before the tracking overrides are installed, so it
records nothing. -/
def bindParamsAux (m : List (String × Value)) :
    List String → List Value → List (String × Value)
  | [], _ => m
  | p :: ps, args => bindParamsAux (mapSet m p (args.headD .absent)) ps (args.drop 1)

/-- The `variables` map of a fresh action environment after parameter
binding. -/
def bindParams (params : List String) (args : List Value) :
    List (String × Value) :=
  bindParamsAux [] params args

/-- The `assignedVars` set recorded on an action frame (empty for frames
that are not action environments). -/
def assignedOf (st : State) (fid : Nat) : List String :=
  match (getFrame st fid).ctx with
  | some ctx => ctx.assigned
  | none => []

/-- Append a fresh frame; its id is the previous heap length. -/
def pushFrame (st : State) (f : Frame) : State :=
  { st with frames := st.frames ++ [f] }

/-- The closure body built by `evaluateActionDeclaration`: make a child
environment of the defining scope, bind the parameters, install the
tracking overrides (`ActionCtx`), run the body statements, then apply the
implicit-return rule to the recorded `assignedVars`: none recorded → last
statement's value; exactly one → its final value; several → a record of all
of them in first-assignment order. -/
def applyClosure (evalFn : Node → Nat → State → Except Err (Value × State))
    (params : List String) (body : List Node) (defEnv : Nat)
    (args : List Value) (st : State) : Except Err (Value × State) := do
  let fid := st.frames.length
  let st1 := pushFrame st ⟨bindParams params args, some defEnv, some ⟨params, []⟩⟩
  let r ← body.foldlM (fun (acc : Value × State) s => evalFn s fid acc.2)
            (Value.absent, st1)
  match assignedOf r.2 fid with
  | [] => .ok r
  | [a] => (envGet r.2 fid a).map fun v => (v, r.2)
  | names => do
      let fields ← names.mapM fun n => (envGet r.2 fid n).map fun v => (n, v)
      .ok (.record fields, r.2)

/-- Invocation of an arbitrary value (`fn(...args)`).  The `Nat` budget
bounds builtin-through-builtin callback nesting (host stack); closures run
their bodies through `evalFn`, whose own fuel bounds action recursion.
Calling a non-callable reports the callee's source name, as
`evaluateCallExpression` does. -/
def callValue (evalFn : Node → Nat → State → Except Err (Value × State)) :
    Nat → Value → String → List Value → State → Except Err (Value × State)
  | _, .closure params body defEnv, _, args, st =>
      applyClosure evalFn params body defEnv args st
  | hfuel + 1, .builtin name, _, args, st =>
      applyBuiltin (fun f a s => callValue evalFn hfuel f "undefined" a s) name args st
  | 0, .builtin _, _, _, _ => .error .stackOverflow
  | _, _, calleeName, _, _ => .error (.notAFunction calleeName)

/-- `typeof fn === 'function'`. -/
def isCallable : Value → Bool
  | .closure _ _ _ => true
  | .builtin _ => true
  | _ => false

/-- The name `evaluateCallExpression` interpolates into its error message:
`node.callee.name`, which is `undefined` unless the callee is an
identifier. -/
def calleeNameOf : Node → String
  | .ident n => n
  | _ => "undefined"

/-- The iteration ceiling (`this.maxIterations`). -/
def maxIterations : Nat := 10000

/-- `evaluateAsStatement`'s `while` loop, recursing on the remaining
iteration budget (`maxIterations - iterations`): re-evaluate the condition;
if truthy and the budget is spent, throw the limit error, otherwise run the
body and continue. -/
def asLoop (evalFn : Node → Nat → State → Except Err (Value × State))
    (cond body : Node) (env : Nat) :
    Nat → Value → State → Except Err (Value × State)
  | remaining, result, st => do
      let (c, st1) ← evalFn cond env st
      if isTruthy c then
        match remaining with
        | 0 => .error .maxIterations
        | r + 1 => do
            let (v, st2) ← evalFn body env st1
            asLoop evalFn cond body env r v st2
      else .ok (result, st1)

/-- `evaluateEachStatement`'s `for` loop over the elements the source
visits (its guard `i < iterable.length && i < this.maxIterations` visits
exactly the first `min length maxIterations` elements, i.e.
`iterable.take maxIterations`): each iteration makes one fresh child scope
binding only the loop variable, then runs the body there. -/
def runEach (evalFn : Node → Nat → State → Except Err (Value × State))
    (vname : String) (body : Node) (env : Nat) :
    List Value → Value → State → Except Err (Value × State)
  | [], result, st => .ok (result, st)
  | item :: rest, _, st => do
      let fid := st.frames.length
      let st1 := pushFrame st ⟨[(vname, item)], some env, none⟩
      let (v, st2) ← evalFn body fid st1
      runEach evalFn vname body env rest v st2

/-- Literal payloads as values. -/
def Prim.toValue : Prim → Value
  | .num q => .num q
  | .str s => .str s
  | .bool b => .bool b

/-- `Interpreter.evaluate`, fuelled: one unit of fuel per AST-dispatch
level (JS recursion depth), `Err.stackOverflow` on exhaustion.  Fuel does
not grow across sequential statements or loop iterations, matching the
host stack. -/
def evaluate : Nat → Node → Nat → State → Except Err (Value × State)
  | 0, _, _, _ => .error .stackOverflow
  | fuel + 1, node, env, st =>
    match node with
    | .program stmts =>
        stmts.foldlM (fun (acc : Value × State) s => evaluate fuel s env acc.2)
          (Value.absent, st)
    | .block stmts =>
        stmts.foldlM (fun (acc : Value × State) s => evaluate fuel s env acc.2)
          (Value.absent, st)
    | .nodeDecl name valueExpr => do
        let (v, st1) ← evaluate fuel valueExpr env st
        let st2 ← nodeAssign st1 env name v
        .ok (v, st2)
    | .actionDecl name params body =>
        let fnVal := Value.closure params body env
        .ok (fnVal, envDefine st env name fnVal)
    | .check cond conseq alt => do
        let (c, st1) ← evaluate fuel cond env st
        if isTruthy c then evaluate fuel conseq env st1
        else
          match alt with
          | some a => evaluate fuel a env st1
          | none => .ok (.absent, st1)
    | .each vname iterable body => do
        let (it, st1) ← evaluate fuel iterable env st
        match it with
        | .arr l =>
            runEach (fun n e s => evaluate fuel n e s) vname body env
              (l.take maxIterations) .absent st1
        | _ => .error .eachRequiresArray
    | .asStmt cond body =>
        asLoop (fun n e s => evaluate fuel n e s) cond body env
          maxIterations .absent st
    | .binary op l r => do
        let (lv, st1) ← evaluate fuel l env st
        let (rv, st2) ← evaluate fuel r env st1
        (applyBinaryOp op lv rv).map fun v => (v, st2)
    | .unary op a => do
        let (v, st1) ← evaluate fuel a env st
        (applyUnaryOp op v).map fun w => (w, st1)
    | .call callee args => do
        let (fn, st1) ← evaluate fuel callee env st
        if isCallable fn then do
          let r ← args.foldlM
            (fun (acc : List Value × State) a => do
              let (v, s) ← evaluate fuel a env acc.2
              pure (acc.1 ++ [v], s))
            ([], st1)
          callValue (fun n e s => evaluate fuel n e s) fuel fn
            (calleeNameOf callee) r.1 r.2
        else .error (.notAFunction (calleeNameOf callee))
    | .memberDot obj name => do
        let (o, st1) ← evaluate fuel obj env st
        (memberGet o name).map fun v => (v, st1)
    | .memberIndex obj propE => do
        let (o, st1) ← evaluate fuel obj env st
        let (p, st2) ← evaluate fuel propE env st1
        (memberGetComputed o p).map fun v => (v, st2)
    | .arrayLit elems => do
        let r ← elems.foldlM
          (fun (acc : List Value × State) e => do
            let (v, s) ← evaluate fuel e env acc.2
            pure (acc.1 ++ [v], s))
          ([], st)
        .ok (.arr r.1, r.2)
    | .ident name => (envGet st env name).map fun v => (v, st)
    | .lit p => .ok (p.toValue, st)

/-- The interpreter's initial state: one global frame holding the builtin
table (registered in source order), empty console output. -/
def initState : State :=
  ⟨[⟨builtinNames.map fun n => (n, Value.builtin n), none, none⟩], []⟩

/-- Execute a program against a fresh interpreter. -/
def run (fuel : Nat) (prog : Node) : Except Err (Value × State) :=
  evaluate fuel prog 0 initState

/-- The value `execute` returns. -/
def runValue (fuel : Nat) (prog : Node) : Except Err Value :=
  (run fuel prog).map fun r => r.1

/-- A global binding after execution (`none` when execution failed or the
name is unbound). -/
def globalAfter (fuel : Nat) (prog : Node) (name : String) : Option Value :=
  match run fuel prog with
  | .ok r => mapGet (getFrame r.2 0).vars name
  | .error _ => none

/-- Console output after execution. -/
def outputAfter (fuel : Nat) (prog : Node) : Option (List (List Value)) :=
  match run fuel prog with
  | .ok r => some r.2.output
  | .error _ => none

/-! ### Lexer (`src/lexer.js`) -/

/-- Token kinds of the scanner. -/
inductive TokenType where
  | CHECK | ELSE | EACH | AS | ACTION | END | IN
  | IDENTIFIER | NUMBER | STRING | BOOLEAN
  | PLUS | MINUS | MULTIPLY | DIVIDE | MODULO | ASSIGN
  | EQUAL | NOT_EQUAL | LESS_THAN | GREATER_THAN | LESS_EQUAL | GREATER_EQUAL
  | AND | OR | NOT
  | LPAREN | RPAREN | LBRACE | RBRACE | LBRACKET | RBRACKET | COMMA | DOT
  | NEWLINE | EOF
  deriving DecidableEq

/-- A token's `value` field: a parsed number, a text payload (identifier,
string content or operator lexeme), a boolean, or `null` (EOF). -/
inductive TokenValue where
  | num (q : ℚ)
  | str (s : String)
  | bool (b : Bool)
  | null
  deriving DecidableEq

/-- A scanner token with its source position. -/
structure Token where
  type : TokenType
  value : TokenValue
  line : Nat
  column : Nat
  deriving DecidableEq

/-- Scanner failures: stray character or unterminated string (with
position), plus an `internal` marker for the step budget of the main loop
(unreachable: every loop pass consumes at least one character). -/
inductive LexErr where
  | unexpectedChar (c : Char) (line column : Nat)
  | unterminatedString (line column : Nat)
  | internal
  deriving DecidableEq

/-- Numeric value of a digit run. -/
def digitsToNat (l : List Char) : Nat :=
  l.foldl (fun a c => a * 10 + (c.toNat - '0'.toNat)) 0

/-- `parseFloat` on the lexeme `readNumber` collects (digits with at most
one decimal point): integer part plus fraction scaled by its length.  The
exact decimal rational is used where the host rounds to the nearest
double. -/
def parseDecimal (l : List Char) : ℚ :=
  let ip := l.takeWhile (· ≠ '.')
  match l.dropWhile (· ≠ '.') with
  | [] => (digitsToNat ip : ℚ)
  | _ :: fp => (digitsToNat ip : ℚ) + (digitsToNat fp : ℚ) / (10 ^ fp.length)

/-- `readNumber`'s consumption loop: take digits, and one decimal point if
none was taken yet; return the consumed lexeme and the rest. -/
def takeNumber : List Char → Bool → (List Char × List Char)
  | [], _ => ([], [])
  | c :: rest, hasDecimal =>
      if c.isDigit then
        let r := takeNumber rest hasDecimal
        (c :: r.1, r.2)
      else if c = '.' ∧ hasDecimal = false then
        let r := takeNumber rest true
        (c :: r.1, r.2)
      else ([], c :: rest)

/-- `readString`'s consumption loop after the opening quote: returns the
unescaped content, the raw consumed characters (for position tracking,
excluding both quotes) and the rest after the closing quote; `none` when
the input ends before the closing quote. -/
def takeStringBody (qc : Char) : List Char → Option (List Char × List Char × List Char)
  | [] => none
  | c :: rest =>
      if c = qc then some ([], [], rest)
      else if c = '\\' then
        match rest with
        | [] => none
        | e :: rest' =>
            let mapped : Char :=
              if e = 'n' then '\n'
              else if e = 't' then '\t'
              else if e = 'r' then '\r'
              else e
            (takeStringBody qc rest').map fun r => (mapped :: r.1, c :: e :: r.2.1, r.2.2)
      else
        (takeStringBody qc rest).map fun r => (c :: r.1, c :: r.2.1, r.2.2)

/-- `advance`'s position bookkeeping over a run of consumed characters. -/
def advancePos (line col : Nat) (consumed : List Char) : Nat × Nat :=
  consumed.foldl (fun p ch => if ch = '\n' then (p.1 + 1, 1) else (p.1, p.2 + 1))
    (line, col)

/-- Identifier characters (`[a-zA-Z0-9_]`). -/
def isIdentChar (c : Char) : Bool :=
  c.isAlpha || c.isDigit || c == '_'

/-- The keyword table; `true`/`false` scan as BOOLEAN tokens. -/
def keywordType (id : String) : TokenType :=
  if id = "check" then .CHECK
  else if id = "else" then .ELSE
  else if id = "each" then .EACH
  else if id = "as" then .AS
  else if id = "action" then .ACTION
  else if id = "end" then .END
  else if id = "in" then .IN
  else if id = "true" then .BOOLEAN
  else if id = "false" then .BOOLEAN
  else .IDENTIFIER

/-- Single-character token table (`singleChar` in the source). -/
def singleCharType (c : Char) : Option TokenType :=
  if c = '+' then some .PLUS
  else if c = '-' then some .MINUS
  else if c = '*' then some .MULTIPLY
  else if c = '/' then some .DIVIDE
  else if c = '%' then some .MODULO
  else if c = '=' then some .ASSIGN
  else if c = '<' then some .LESS_THAN
  else if c = '>' then some .GREATER_THAN
  else if c = '!' then some .NOT
  else if c = '(' then some .LPAREN
  else if c = ')' then some .RPAREN
  else if c = '\x7b' then some .LBRACE
  else if c = '\x7d' then some .RBRACE
  else if c = '[' then some .LBRACKET
  else if c = ']' then some .RBRACKET
  else if c = ',' then some .COMMA
  else if c = '.' then some .DOT
  else none

/-- One pass of `Lexer.tokenize`'s main loop per unit of `gas` (each pass
consumes at least one character, so `input.length + 1` units always
suffice): skip whitespace, then dispatch on the next character exactly as
the source does — comments, newline tokens, numbers, strings, identifiers
and keywords, two-character operators, then single-character tokens. -/
def tokenizeAux (gas : Nat) (cs : List Char) (line col : Nat)
    (acc : List Token) : Except LexErr (List Token) :=
  match gas with
  | 0 => .error .internal
  | gas + 1 =>
    let ws := cs.takeWhile fun c => c == ' ' || c == '\t' || c == '\r'
    let rest := cs.dropWhile fun c => c == ' ' || c == '\t' || c == '\r'
    let col := col + ws.length
    match rest with
    | [] => .ok (acc ++ [⟨.EOF, .null, line, col⟩])
    | c :: cs' =>
      if c = '/' ∧ cs'.headD ' ' = '/' then
        let cm := (c :: cs').takeWhile (· ≠ '\n')
        tokenizeAux gas ((c :: cs').dropWhile (· ≠ '\n')) line (col + cm.length) acc
      else if c = '\n' then
        tokenizeAux gas cs' (line + 1) 1 (acc ++ [⟨.NEWLINE, .str "\n", line, col⟩])
      else if c.isDigit = true then
        let r := takeNumber (c :: cs') false
        tokenizeAux gas r.2 line (col + r.1.length)
          (acc ++ [⟨.NUMBER, .num (parseDecimal r.1), line, col⟩])
      else if c = '"' ∨ c = '\'' then
        match takeStringBody c cs' with
        | none => .error (.unterminatedString line col)
        | some (content, raw, rest') =>
            let p := advancePos line col (c :: (raw ++ [c]))
            tokenizeAux gas rest' p.1 p.2
              (acc ++ [⟨.STRING, .str (String.mk content), line, col⟩])
      else if c.isAlpha = true ∨ c = '_' then
        let idStr := String.mk ((c :: cs').takeWhile isIdentChar)
        let rest' := (c :: cs').dropWhile isIdentChar
        let ty := keywordType idStr
        let v : TokenValue :=
          if ty = .BOOLEAN then .bool (idStr = "true") else .str idStr
        tokenizeAux gas rest' line (col + idStr.length)
          (acc ++ [⟨ty, v, line, col⟩])
      else if c = '=' ∧ cs'.headD ' ' = '=' then
        tokenizeAux gas (cs'.drop 1) line (col + 2)
          (acc ++ [⟨.EQUAL, .str "==", line, col⟩])
      else if c = '!' ∧ cs'.headD ' ' = '=' then
        tokenizeAux gas (cs'.drop 1) line (col + 2)
          (acc ++ [⟨.NOT_EQUAL, .str "!=", line, col⟩])
      else if c = '<' ∧ cs'.headD ' ' = '=' then
        tokenizeAux gas (cs'.drop 1) line (col + 2)
          (acc ++ [⟨.LESS_EQUAL, .str "<=", line, col⟩])
      else if c = '>' ∧ cs'.headD ' ' = '=' then
        tokenizeAux gas (cs'.drop 1) line (col + 2)
          (acc ++ [⟨.GREATER_EQUAL, .str ">=", line, col⟩])
      else if c = '&' ∧ cs'.headD ' ' = '&' then
        tokenizeAux gas (cs'.drop 1) line (col + 2)
          (acc ++ [⟨.AND, .str "&&", line, col⟩])
      else if c = '|' ∧ cs'.headD ' ' = '|' then
        tokenizeAux gas (cs'.drop 1) line (col + 2)
          (acc ++ [⟨.OR, .str "||", line, col⟩])
      else
        match singleCharType c with
        | some ty =>
            tokenizeAux gas cs' line (col + 1)
              (acc ++ [⟨ty, .str (String.mk [c]), line, col⟩])
        | none => .error (.unexpectedChar c line col)

/-- `Lexer.tokenize`: scan the whole input, ending with the EOF sentinel. -/
def tokenize (input : String) : Except LexErr (List Token) :=
  tokenizeAux (input.length + 1) input.toList 1 1 []

/-! ### Derived notions used by the theorems -/

/-- The ids of the frames an environment walk visits from `fid` towards the
root, cut off by the same step budget the walk functions use. -/
def chainIds (st : State) : Nat → Nat → List Nat
  | 0, _ => []
  | gas + 1, fid =>
      fid ::
        match (getFrame st fid).parent with
        | some p => chainIds st gas p
        | none => []

/-! ### Concrete test fixtures

Each fixture is the abstract syntax tree the parser produces for the quoted
source text (hand-translated; the parser is not part of the claims under
check, and the translation is direct: one statement per line, blocks for
compound bodies). -/

/-- `action double(x)  result = x * 2  end`, then `double(5)`. -/
def progActionSingle : Node :=
  .program [
    .actionDecl "double" ["x"] [
      .nodeDecl "result" (.binary "*" (.ident "x") (.lit (.num 2)))],
    .call (.ident "double") [.lit (.num 5)]]

/-- `action calc(a, b)  sum = a + b  diff = a - b  prod = a * b  end`, then
`calc(10, 5)`. -/
def progActionMulti : Node :=
  .program [
    .actionDecl "calc" ["a", "b"] [
      .nodeDecl "sum" (.binary "+" (.ident "a") (.ident "b")),
      .nodeDecl "diff" (.binary "-" (.ident "a") (.ident "b")),
      .nodeDecl "prod" (.binary "*" (.ident "a") (.ident "b"))],
    .call (.ident "calc") [.lit (.num 10), .lit (.num 5)]]

/-- `action add(a, b)  a + b  end`, then `add(2, 3)` — a body with no
assignment at all. -/
def progActionZero : Node :=
  .program [
    .actionDecl "add" ["a", "b"] [
      .binary "+" (.ident "a") (.ident "b")],
    .call (.ident "add") [.lit (.num 2), .lit (.num 3)]]

/-- `g = 1`, then `action f()  each (x in [1]) g = 2 end  99  end`, then
`f()`: the name `g` exists only in the global scope, never in `f`'s own
scope, and is assigned inside the nested loop. -/
def progNestedGlobal : Node :=
  .program [
    .nodeDecl "g" (.lit (.num 1)),
    .actionDecl "f" [] [
      .each "x" (.arrayLit [.lit (.num 1)])
        (.block [.nodeDecl "g" (.lit (.num 2))]),
      .lit (.num 99)],
    .call (.ident "f") []]

/-- `sum = 0`, then `each (item in [1, 2, 3])  sum = sum + item  end`. -/
def progEachSum : Node :=
  .program [
    .nodeDecl "sum" (.lit (.num 0)),
    .each "item" (.arrayLit [.lit (.num 1), .lit (.num 2), .lit (.num 3)])
      (.block [.nodeDecl "sum" (.binary "+" (.ident "sum") (.ident "item"))])]

/-- `true || print(7)` — the left operand already decides the result. -/
def progOrPrint : Node :=
  .program [.binary "||" (.lit (.bool true)) (.call (.ident "print") [.lit (.num 7)])]

/-- `false && print(8)` — the left operand already decides the result. -/
def progAndPrint : Node :=
  .program [.binary "&&" (.lit (.bool false)) (.call (.ident "print") [.lit (.num 8)])]

/-- `arr = [1, 2]`, `b = push(arr, 3)`, `c = pop(arr)`. -/
def progPushPop : Node :=
  .program [
    .nodeDecl "arr" (.arrayLit [.lit (.num 1), .lit (.num 2)]),
    .nodeDecl "b" (.call (.ident "push") [.ident "arr", .lit (.num 3)]),
    .nodeDecl "c" (.call (.ident "pop") [.ident "arr"])]

/-- `action f(a, b, c)  r = [a, b, c]  end`, then `f(1)` — fewer arguments
than parameters. -/
def progArityFewer : Node :=
  .program [
    .actionDecl "f" ["a", "b", "c"] [
      .nodeDecl "r" (.arrayLit [.ident "a", .ident "b", .ident "c"])],
    .call (.ident "f") [.lit (.num 1)]]

/-- `action f(a, b, c)  r = [a, b, c]  end`, then `f(1, 2, 3, 4)` — more
arguments than parameters. -/
def progArityExtra : Node :=
  .program [
    .actionDecl "f" ["a", "b", "c"] [
      .nodeDecl "r" (.arrayLit [.ident "a", .ident "b", .ident "c"])],
    .call (.ident "f") [.lit (.num 1), .lit (.num 2), .lit (.num 3), .lit (.num 4)]]

/-- `"foo" + "bar"`. -/
def progConcat : Node :=
  .program [.binary "+" (.lit (.str "foo")) (.lit (.str "bar"))]

/-- The loop body `sum = sum + item` as a block, used to state the general
accumulation behaviour of an each-loop over the enclosing scope. -/
def sumLoopBody : Node :=
  .block [.nodeDecl "sum" (.binary "+" (.ident "sum") (.ident "item"))]

/-- A one-frame global scope binding `sum` to 0. -/
def sampleSumState : State :=
  ⟨[⟨[("sum", .num 0)], none, none⟩], []⟩

/-- A two-frame plain-environment chain (no action overrides): the root
binds `x`, its child binds `y`. -/
def sampleChain : State :=
  ⟨[⟨[("x", .num 1)], none, none⟩, ⟨[("y", .num 2)], some 0, none⟩], []⟩

/-- A global scope whose `xs` holds an array of 10001 elements (one more
than the iteration ceiling). -/
def stateLongArr : State :=
  ⟨[⟨[("xs", .arr (List.replicate 10001 (.num 0)))], none, none⟩], []⟩

/-- A loop-style scope chain inside an action call: global frame 0 binds
`g`, frame 1 is an action environment (with the tracking override
installed) whose parent is the global frame, frame 2 is a loop child scope
of the action frame binding only `x`. -/
def sampleActionChain : State :=
  ⟨[⟨[("g", .num 1)], none, none⟩,
    ⟨[], some 0, some ⟨[], []⟩⟩,
    ⟨[("x", .num 1)], some 1, none⟩], []⟩

/-! ### Theorems -/

/-- Replacing one frame leaves every other frame unchanged. -/
theorem getFrame_setFrame_ne (st : State) (j k : Nat) (f : Frame) (h : k ≠ j) :
    getFrame (setFrame st j f) k = getFrame st k := by
  simp [getFrame, setFrame, List.getD, List.getElem?_set_ne (Ne.symm h)]

/-- Replacing a frame in range stores exactly that frame. -/
theorem getFrame_setFrame_self (st : State) (j : Nat) (f : Frame)
    (h : j < st.frames.length) : getFrame (setFrame st j f) j = f := by
  simp [getFrame, setFrame, List.getD, List.getElem?_set_self, h]

/-- Appending a frame leaves the existing frames unchanged. -/
theorem getFrame_pushFrame_lt (st : State) (f : Frame) (fid : Nat)
    (h : fid < st.frames.length) :
    getFrame (pushFrame st f) fid = getFrame st fid := by
  simp [getFrame, pushFrame, List.getD, List.getElem?_append, h]

/-- The appended frame sits at the old heap length. -/
theorem getFrame_pushFrame_self (st : State) (f : Frame) :
    getFrame (pushFrame st f) st.frames.length = f := by
  simp [getFrame, pushFrame, List.getD]

/-- A `Map.set` makes the written key readable. -/
theorem mapGet_mapSet_self (m : List (String × Value)) (n : String) (v : Value) :
    mapGet (mapSet m n v) n = some v := by
  induction m with
  | nil => simp [mapSet, mapGet]
  | cons kv rest ih =>
    obtain ⟨k, w⟩ := kv
    by_cases h : k = n
    · simp [mapSet, mapGet, h]
    · simp [mapSet, mapGet, h, ih]

/-- A `Map.set` leaves every other key unchanged. -/
theorem mapGet_mapSet_ne (m : List (String × Value)) (n x : String) (v : Value)
    (h : x ≠ n) : mapGet (mapSet m n v) x = mapGet m x := by
  induction m with
  | nil => simp [mapSet, mapGet, Ne.symm h]
  | cons kv rest ih =>
    obtain ⟨k, w⟩ := kv
    by_cases hk : k = n
    · subst hk
      simp [mapSet, mapGet, Ne.symm h]
    · by_cases hx : k = x
      · subst hx
        simp [mapSet, mapGet, hk, h, ih]
      · simp [mapSet, mapGet, hk, hx, ih]

/-- C10: for every two String values `s` and `t`, the binary `+` operator
evaluates to their concatenation (the evaluator's `+` branch, which is host
`+`, concatenates strings), both as a fact about the operator table and as
a fact about full evaluation of `s + t`, with the concrete program
`"foo" + "bar"` yielding `"foobar"`. -/
theorem claim_C10 :
    (∀ s t : String, jsAdd (.str s) (.str t) = .str (s ++ t)) ∧
    (∀ (fuel : Nat) (s t : String) (env : Nat) (st : State),
      evaluate (fuel + 2) (.binary "+" (.lit (.str s)) (.lit (.str t))) env st =
        .ok (.str (s ++ t), st)) ∧
    runValue 5 progConcat = .ok (.str "foobar") := by
  refine ⟨?_, ?_, rfl⟩
  · intro s t
    simp [jsAdd, toPrimitive]
  · intro fuel s t env st
    simp [evaluate, applyBinaryOp, jsAdd, toPrimitive, Prim.toValue,
      Except.map, Bind.bind, Except.bind]

/-- C7: `push(arr, x)` returns a new array equal to `arr` with `x`
appended, and `pop(arr)` returns a Record `{array, item}` with `arr`
without its last element and that last element; neither mutates its input —
in the concrete program `arr = [1,2]; b = push(arr, 3); c = pop(arr)` the
binding `arr` is unchanged afterwards. -/
theorem claim_C7 :
    (∀ (cb : Value → List Value → State → Except Err (Value × State))
       (l : List Value) (x : Value) (st : State),
      applyBuiltin cb "push" [.arr l, x] st = .ok (.arr (l ++ [x]), st)) ∧
    (∀ (cb : Value → List Value → State → Except Err (Value × State))
       (l : List Value) (a : Value) (st : State), l.getLast? = some a →
      applyBuiltin cb "pop" [.arr l] st =
        .ok (.record [("array", .arr l.dropLast), ("item", a)], st)) ∧
    globalAfter 20 progPushPop "arr" = some (.arr [.num 1, .num 2]) ∧
    globalAfter 20 progPushPop "b" = some (.arr [.num 1, .num 2, .num 3]) ∧
    globalAfter 20 progPushPop "c" =
      some (.record [("array", .arr [.num 1]), ("item", .num 2)]) := by
  refine ⟨fun cb l x st => rfl, ?_, rfl, rfl, rfl⟩
  intro cb l a st h
  simp [applyBuiltin, argD, h]

/-- Witness for C7's `pop` hypothesis at the concrete array `[1, 2]`. -/
theorem claim_C7_witness :
    applyBuiltin (fun _ _ _ => Except.error Err.stackOverflow) "pop"
        [Value.arr [.num 1, .num 2]] initState =
      .ok (.record [("array", .arr [.num 1]), ("item", .num 2)], initState) :=
  claim_C7.2.1 _ [.num 1, .num 2] (.num 2) initState rfl

/-- C6: `&&` and `||` evaluate both operands unconditionally (the right
operand's evaluation — with its side effects — always runs, even when the
left operand decides the result) and combine the two values by truthiness;
truthiness is false for Absent, the boolean itself, false for a Number
exactly at zero, false for a String exactly when empty, and true for
Arrays, Records and Callables.  Concretely, `true || print(7)` and
`false && print(8)` both print. -/
theorem claim_C6 :
    (∀ (fuel : Nat) (l r : Node) (env : Nat) (st : State),
      evaluate (fuel + 1) (.binary "&&" l r) env st =
        (evaluate fuel l env st).bind fun p =>
          (evaluate fuel r env p.2).bind fun q =>
            .ok (.bool (isTruthy p.1 && isTruthy q.1), q.2)) ∧
    (∀ (fuel : Nat) (l r : Node) (env : Nat) (st : State),
      evaluate (fuel + 1) (.binary "||" l r) env st =
        (evaluate fuel l env st).bind fun p =>
          (evaluate fuel r env p.2).bind fun q =>
            .ok (.bool (isTruthy p.1 || isTruthy q.1), q.2)) ∧
    isTruthy .absent = false ∧
    (∀ b, isTruthy (.bool b) = b) ∧
    (∀ q : ℚ, isTruthy (.num q) = (q != 0)) ∧
    (∀ s : String, isTruthy (.str s) = decide (0 < s.length)) ∧
    (∀ l, isTruthy (.arr l) = true) ∧
    (∀ f, isTruthy (.record f) = true) ∧
    (∀ p b e, isTruthy (.closure p b e) = true) ∧
    (∀ n, isTruthy (.builtin n) = true) ∧
    runValue 6 progOrPrint = .ok (.bool true) ∧
    outputAfter 6 progOrPrint = some [[.num 7]] ∧
    runValue 6 progAndPrint = .ok (.bool false) ∧
    outputAfter 6 progAndPrint = some [[.num 8]] := by
  refine ⟨?_, ?_, rfl, fun b => rfl, fun q => rfl, fun s => rfl, fun l => rfl,
    fun f => rfl, fun p b e => rfl, fun n => rfl, rfl, rfl, rfl, rfl⟩
  all_goals
    intro fuel l r env st
    simp only [evaluate]
    cases h1 : evaluate fuel l env st with
    | error e => simp [Bind.bind, Except.bind]
    | ok p =>
      obtain ⟨lv, st1⟩ := p
      cases h2 : evaluate fuel r env st1 with
      | error e => simp [Bind.bind, Except.bind, h2]
      | ok q =>
        obtain ⟨rv, st2⟩ := q
        simp [Bind.bind, Except.bind, h2, applyBinaryOp, Except.map]

/-- C8: tokenizing `"42 3.14"` yields exactly two NUMBER tokens with values
42 and 3.14 followed by the EOF sentinel; in general the lexeme
`readNumber` consumes contains only digits and decimal points with at most
one decimal point (so no exponent and no sign), and a leading sign scans as
a separate MINUS token left to the parser (`"-5"`). -/
theorem claim_C8 :
    tokenize "42 3.14" =
      .ok [⟨.NUMBER, .num 42, 1, 1⟩, ⟨.NUMBER, .num 3.14, 1, 4⟩,
           ⟨.EOF, .null, 1, 8⟩] ∧
    (∀ (cs : List Char) (hasDecimal : Bool),
      ((takeNumber cs hasDecimal).1.all fun c => c.isDigit || c == '.') = true ∧
      (takeNumber cs hasDecimal).1.count '.' ≤ (if hasDecimal then 0 else 1)) ∧
    tokenize "-5" =
      .ok [⟨.MINUS, .str "-", 1, 1⟩, ⟨.NUMBER, .num 5, 1, 2⟩,
           ⟨.EOF, .null, 1, 3⟩] := by
  refine ⟨?_, ?_, rfl⟩
  · have h : tokenize "42 3.14" =
        .ok [⟨.NUMBER, .num ((42 : ℕ) : ℚ), 1, 1⟩,
             ⟨.NUMBER, .num (((3 : ℕ) : ℚ) + ((14 : ℕ) : ℚ) / (10 ^ 2)), 1, 4⟩,
             ⟨.EOF, .null, 1, 8⟩] := rfl
    rw [h]
    norm_num
  · intro cs
    induction cs with
    | nil => intro b; simp [takeNumber]
    | cons c rest ih =>
      intro b
      by_cases hd : c.isDigit = true
      · have hne : ¬(c = '.') := by
          intro h; subst h; simp [Char.isDigit] at hd
        obtain ⟨ih1, ih2⟩ := ih b
        refine ⟨?_, ?_⟩
        · simp [takeNumber, hd, ih1]
        · simpa [takeNumber, hd, List.count_cons, hne] using ih2
      · by_cases hdot : c = '.'
        · cases b with
          | true =>
            subst hdot
            simp [takeNumber, hd, List.count_cons]
          | false =>
            subst hdot
            obtain ⟨ih1, ih2⟩ := ih true
            have h0 : ((takeNumber rest true).1.count '.') = 0 := by
              simpa using ih2
            refine ⟨?_, ?_⟩
            · simp [takeNumber, hd, ih1]
            · simp [takeNumber, hd, List.count_cons, h0]
        · simp [takeNumber, hd, hdot]

/-- C2, counterexample: in `g = 1; action f() each (x in [1]) g = 2 end 99 end; f()`
the name `g` never existed in the action's own scope (only in the global
scope), yet the assignment inside the nested ForEach is recorded by the
action's overridden `set`: the call returns `g`'s value 2 — not 99, the
last statement's value that the claim's zero-names-recorded rule would
demand — and the global `g` is left untouched at 1 rather than updated in
the ancestor scope. -/
theorem claim_C2_counterexample :
    runValue 20 progNestedGlobal = .ok (.num 2) ∧
    globalAfter 20 progNestedGlobal "g" = some (.num 1) ∧
    Value.num 2 ≠ Value.num 99 := by
  refine ⟨rfl, rfl, ?_⟩
  norm_num

/-- C2, amended: an assignment inside a nested ForEach of an action body
counts toward the action's recorded set whenever it is reached via the
`set` walk — i.e. the name is not bound in the loop's own scope but exists
somewhere up the chain — because the walk is intercepted at the action
frame, which records the name (unless it is a parameter) and creates or
updates the binding locally in the action frame, never in any ancestor,
regardless of whether the name already existed in the action's own scope or
only in an ancestor such as the global scope; a brand-new name bound
nowhere in the chain is defined in the loop's child scope only, leaving
every other frame (and hence the action-level protocol) untouched. -/
theorem claim_C2 :
    (∀ (st : State) (gas loopFid afid : Nat) (actx : ActionCtx) (name : String) (v : Value),
      (getFrame st loopFid).ctx = none →
      mapHas (getFrame st loopFid).vars name = false →
      (getFrame st loopFid).parent = some afid →
      (getFrame st afid).ctx = some actx →
      envSetAux st (gas + 2) loopFid name v =
        .ok (actionFrameAssign st afid actx name v)) ∧
    (∀ (st : State) (afid : Nat) (actx : ActionCtx) (name : String) (v : Value),
      afid < st.frames.length →
      ¬name ∈ actx.params →
      assignedOf (actionFrameAssign st afid actx name v) afid =
          addOnce actx.assigned name ∧
      mapGet (getFrame (actionFrameAssign st afid actx name v) afid).vars name =
          some v ∧
      ∀ k, k ≠ afid →
        getFrame (actionFrameAssign st afid actx name v) k = getFrame st k) ∧
    (∀ (st : State) (loopFid p : Nat) (name : String) (v : Value),
      mapHas (getFrame st loopFid).vars name = false →
      (getFrame st loopFid).parent = some p →
      envHas st p name = false →
      (getFrame st loopFid).ctx = none →
      nodeAssign st loopFid name v = .ok (envDefine st loopFid name v) ∧
      envDefine st loopFid name v = frameDefine st loopFid name v ∧
      ∀ k, k ≠ loopFid →
        getFrame (frameDefine st loopFid name v) k = getFrame st k) ∧
    (envSet sampleActionChain 2 "g" (.num 2)).map (fun s => assignedOf s 1) =
      .ok ["g"] ∧
    (envSet sampleActionChain 2 "g" (.num 2)).map
        (fun s => mapGet (getFrame s 1).vars "g") = .ok (some (.num 2)) ∧
    (envSet sampleActionChain 2 "g" (.num 2)).map
        (fun s => mapGet (getFrame s 0).vars "g") = .ok (some (.num 1)) := by
  refine ⟨?_, ?_, ?_, rfl, rfl, rfl⟩
  · intro st gas loopFid afid actx name v hctx hhas hp hactx
    show envSetAux st ((gas + 1) + 1) loopFid name v = _
    simp only [envSetAux, hctx, hhas, hp]
    simp [envSetAux, hactx]
  · intro st afid actx name v hlen hparams
    refine ⟨?_, ?_, ?_⟩
    · simp [assignedOf, actionFrameAssign, getFrame_setFrame_self _ _ _ hlen, hparams]
    · simp [actionFrameAssign, getFrame_setFrame_self _ _ _ hlen, mapGet_mapSet_self]
    · intro k hk
      simp [actionFrameAssign, getFrame_setFrame_ne _ _ _ _ hk]
  · intro st loopFid p name v hhas hp hhasP hctx
    refine ⟨?_, ?_, ?_⟩
    · simp [nodeAssign, hhas, hp, hhasP]
    · simp [envDefine, hctx]
    · intro k hk
      simp [frameDefine, getFrame_setFrame_ne _ _ _ _ hk]

/-- Witness for C2's hypotheses, on the concrete loop-in-action chain
`sampleActionChain` (intercepted walk for the global-only name `g`) and on
`sampleChain` (brand-new name `z` defined locally). -/
theorem claim_C2_witness :
    envSetAux sampleActionChain 3 2 "g" (.num 2) =
      .ok (actionFrameAssign sampleActionChain 1 ⟨[], []⟩ "g" (.num 2)) ∧
    assignedOf (actionFrameAssign sampleActionChain 1 ⟨[], []⟩ "g" (.num 2)) 1 =
      ["g"] ∧
    nodeAssign sampleChain 1 "z" (.num 7) =
      .ok (envDefine sampleChain 1 "z" (.num 7)) := by
  refine ⟨claim_C2.1 sampleActionChain 1 2 1 ⟨[], []⟩ "g" (.num 2) rfl rfl rfl rfl,
    ?_, ?_⟩
  · exact (claim_C2.2.1 sampleActionChain 1 ⟨[], []⟩ "g" (.num 2) (by decide)
      (by simp)).1
  · exact (claim_C2.2.2.1 sampleChain 1 0 "z" (.num 7) rfl rfl rfl rfl).1

/-- Parameters not named by a suffix of the parameter list keep their
previous binding while that suffix is bound. -/
theorem bindParamsAux_not_mem (ps : List String) :
    ∀ (m : List (String × Value)) (args : List Value) (x : String), x ∉ ps →
      mapGet (bindParamsAux m ps args) x = mapGet m x := by
  induction ps with
  | nil => intro m args x _; rfl
  | cons p ps' ih =>
    intro m args x hx
    simp only [List.mem_cons, not_or] at hx
    simp only [bindParamsAux]
    rw [ih _ _ _ hx.2, mapGet_mapSet_ne _ _ _ _ hx.1]

/-- C9: an action invoked with fewer arguments than parameters binds every
missing parameter to Absent (the i-th parameter is bound to the i-th
argument when present and to Absent otherwise — no arity check exists), and
extra arguments are ignored (binding only consults the first
`params.length` arguments).  Concretely, `action f(a,b,c) r = [a,b,c] end`
called as `f(1)` returns `[1, Absent, Absent]` without error, and called as
`f(1,2,3,4)` returns `[1,2,3]`. -/
theorem claim_C9 :
    (∀ (ps : List String) (args : List Value) (m : List (String × Value)),
      ps.Nodup → ∀ i (h : i < ps.length),
      mapGet (bindParamsAux m ps args) (ps.get ⟨i, h⟩) =
        some (args.getD i .absent)) ∧
    (∀ (ps : List String) (args : List Value) (m : List (String × Value)),
      bindParamsAux m ps args = bindParamsAux m ps (args.take ps.length)) ∧
    runValue 20 progArityFewer = .ok (.arr [.num 1, .absent, .absent]) ∧
    runValue 20 progArityExtra = .ok (.arr [.num 1, .num 2, .num 3]) := by
  refine ⟨?_, ?_, rfl, rfl⟩
  · intro ps
    induction ps with
    | nil => intro args m _ i h; simp at h
    | cons p ps' ih =>
      intro args m hnd i h
      simp only [List.nodup_cons] at hnd
      cases i with
      | zero =>
        simp only [bindParamsAux, List.get]
        rw [bindParamsAux_not_mem _ _ _ _ hnd.1, mapGet_mapSet_self]
        cases args <;> rfl
      | succ i =>
        simp only [bindParamsAux, List.get]
        rw [ih _ _ hnd.2 i (by simpa using h)]
        cases args <;> simp [List.getD]
  · intro ps
    induction ps with
    | nil => intro args m; rfl
    | cons p ps' ih =>
      intro args m
      cases args with
      | nil => simp only [bindParamsAux, List.take_nil]
      | cons a as =>
        simp only [bindParamsAux, List.length_cons, List.take_succ_cons,
          List.headD_cons, List.drop_succ_cons, List.drop_zero]
        exact ih _ _

/-- Witness for C9: parameters `a, b` with the single argument `7` bind `b`
to Absent. -/
theorem claim_C9_witness :
    mapGet (bindParams ["a", "b"] [Value.num 7]) "b" = some Value.absent :=
  claim_C9.1 ["a", "b"] [Value.num 7] [] (by decide) 1 (by decide)

/-- C5: walking a scope chain, `get(name)` returns the binding of the
nearest frame that binds the name (the first hit in local-to-root walk
order) and fails with the "undefined variable" NameError when no frame in
the chain binds it; `set(name, value)` updates the first frame in the same
walk order that already binds the name — on plain chains, i.e. absent the
action-call override — updating in place without ever creating a new
binding (the key set of the updated map is unchanged), and fails with the
same NameError when the name is bound nowhere. -/
theorem claim_C5 :
    (∀ (st : State) (gas fid : Nat) (name : String),
      envGetAux st gas fid name =
        match (chainIds st gas fid).findSome?
            (fun j => mapGet (getFrame st j).vars name) with
        | some v => .ok v
        | none => .error (.undefinedVariable name)) ∧
    (∀ (st : State) (gas fid : Nat) (name : String) (v : Value),
      (∀ j ∈ chainIds st gas fid, (getFrame st j).ctx = none) →
      envSetAux st gas fid name v =
        match (chainIds st gas fid).find?
            (fun j => mapHas (getFrame st j).vars name) with
        | some j => .ok (frameDefine st j name v)
        | none => .error (.undefinedVariable name)) ∧
    (∀ (m : List (String × Value)) (n : String) (v : Value),
      mapHas m n = true → (mapSet m n v).map Prod.fst = m.map Prod.fst) := by
  refine ⟨?_, ?_, ?_⟩
  · intro st gas
    induction gas with
    | zero => intro fid name; simp [envGetAux, chainIds]
    | succ g ih =>
      intro fid name
      simp only [envGetAux, chainIds]
      cases hv : mapGet (getFrame st fid).vars name with
      | some v => simp [List.findSome?_cons, hv]
      | none =>
        cases hp : (getFrame st fid).parent with
        | some p =>
          simp only [hp, List.findSome?_cons, hv]
          exact ih p name
        | none => simp [hp, List.findSome?_cons, hv]
  · intro st gas
    induction gas with
    | zero => intro fid name v _; simp [envSetAux, chainIds]
    | succ g ih =>
      intro fid name v hno
      have hfid : (getFrame st fid).ctx = none :=
        hno fid (by simp [chainIds])
      simp only [envSetAux, hfid]
      cases hh : mapHas (getFrame st fid).vars name with
      | true => simp [chainIds, List.find?_cons, hh]
      | false =>
        cases hp : (getFrame st fid).parent with
        | some p =>
          simp only [hh, hp, chainIds, List.find?_cons]
          simp only [Bool.false_eq_true, if_false]
          exact ih p name v (fun j hj => hno j (by simp [chainIds, hp]; right; exact hj))
        | none => simp [hh, hp, chainIds, List.find?_cons]
  · intro m n v
    induction m with
    | nil => intro h; simp [mapHas, mapGet] at h
    | cons kv rest ih =>
      obtain ⟨k, w⟩ := kv
      intro h
      by_cases hk : k = n
      · simp [mapSet, hk]
      · have hr : mapHas rest n = true := by
          simpa [mapHas, mapGet, hk] using h
        simp [mapSet, hk, ih hr]

/-- Witness for C5's hypotheses on the two-frame `sampleChain`: `set` from
the child frame updates the root binding of `x`, and an in-place map
update keeps the key set. -/
theorem claim_C5_witness :
    envSetAux sampleChain 2 1 "x" (.num 9) =
      .ok (frameDefine sampleChain 0 "x" (.num 9)) ∧
    (mapSet [("x", Value.num 1)] "x" (.num 9)).map Prod.fst = ["x"] := by
  constructor
  · refine (claim_C5.2.1 sampleChain 2 1 "x" (.num 9) ?_).trans rfl
    intro j hj
    have hc : chainIds sampleChain 2 1 = [1, 0] := rfl
    rw [hc] at hj
    simp only [List.mem_cons, List.mem_singleton, List.not_mem_nil, or_false] at hj
    rcases hj with rfl | rfl <;> rfl
  · exact (claim_C5.2.2 [("x", Value.num 1)] "x" (.num 9) rfl).trans rfl

/-- C1: a call to an action runs its body statements in the fresh action
environment and then resolves its result from the recorded
locally-assigned names exactly as the implicit-return protocol says: no
recorded name → the last executed statement's value; exactly one recorded
name → that name's final value; more than one → a Record of exactly those
names, each mapped to its final value, in first-assignment (recording)
order.  The concrete spec examples: one assignment (`double(5) = 10`),
three assignments (`calc(10,5)` gives the record
`{sum: 15, diff: 5, prod: 50}` with keys in first-assignment order — not,
for instance, alphabetical order), and no assignment (`add(2,3) = 5`, the
last statement's value). -/
theorem claim_C1 :
    (∀ (evalFn : Node → Nat → State → Except Err (Value × State))
       (params : List String) (body : List Node) (defEnv : Nat)
       (args : List Value) (st : State),
      applyClosure evalFn params body defEnv args st =
        match body.foldlM
            (fun (acc : Value × State) s => evalFn s st.frames.length acc.2)
            (Value.absent,
             pushFrame st ⟨bindParams params args, some defEnv, some ⟨params, []⟩⟩) with
        | .error e => .error e
        | .ok r =>
          match assignedOf r.2 st.frames.length with
          | [] => .ok r
          | [a] => (envGet r.2 st.frames.length a).map fun v => (v, r.2)
          | names =>
              (names.mapM fun n =>
                (envGet r.2 st.frames.length n).map fun v => (n, v)).map
                fun fields => (.record fields, r.2)) ∧
    runValue 20 progActionSingle = .ok (.num 10) ∧
    runValue 20 progActionMulti =
      .ok (.record [("sum", .num 15), ("diff", .num 5), ("prod", .num 50)]) ∧
    runValue 20 progActionZero = .ok (.num 5) := by
  refine ⟨?_, ?_, ?_, ?_⟩
  · intro evalFn params body defEnv args st
    simp only [applyClosure]
    cases h : body.foldlM
        (fun (acc : Value × State) s => evalFn s st.frames.length acc.2)
        (Value.absent,
         pushFrame st ⟨bindParams params args, some defEnv, some ⟨params, []⟩⟩) with
    | error e => simp [Bind.bind, Except.bind, h]
    | ok r =>
      simp only [Bind.bind, Except.bind, h]
      cases hA : assignedOf r.2 st.frames.length with
      | nil => rfl
      | cons a rest =>
        cases rest with
        | nil => rfl
        | cons b rest' =>
          cases hm : (a :: b :: rest').mapM fun n =>
              (envGet r.2 st.frames.length n).map fun v => (n, v) with
          | error e => simp [Bind.bind, Except.bind, hm, Except.map]
          | ok fields => simp [Bind.bind, Except.bind, hm, Except.map]
  · have h : runValue 20 progActionSingle = .ok (.num (5 * 2)) := rfl
    rw [h]; norm_num
  · have h : runValue 20 progActionMulti =
        .ok (.record [("sum", .num (10 + 5)), ("diff", .num (10 - 5)),
                      ("prod", .num (10 * 5))]) := rfl
    rw [h]; norm_num
  · have h : runValue 20 progActionZero = .ok (.num (2 + 3)) := rfl
    rw [h]; norm_num

/-- An `as` loop whose condition is the literal `true` and whose body is
empty reaches the iteration ceiling and throws, whatever the remaining
iteration budget and state. -/
theorem asLoop_true_limit (fuel env : Nat) :
    ∀ (remaining : Nat) (res : Value) (st : State),
      asLoop (fun n e s => evaluate (fuel + 1) n e s) (.lit (.bool true))
          (.block []) env remaining res st = .error .maxIterations := by
  intro remaining
  induction remaining with
  | zero => intro res st; exact rfl
  | succ r ih => intro res st; exact ih .absent st

/-- C3: a ForEach over an array longer than the 10,000-iteration ceiling
behaves exactly like the loop over the array's first 10,000 elements (which
number exactly 10,000) and — the loop machinery adding no failure of its
own — terminates successfully for arrays of any length when the body is
trivial, while a WhileLoop whose condition stays true past the same
ceiling raises the RuntimeLimitError; a ForEach whose iterable evaluates to
a non-Array raises the TypeError (`Each statement requires an array`). -/
theorem claim_C3 :
    (∀ (fuel : Nat) (vname : String) (iterExpr body : Node) (env : Nat)
       (st st1 : State) (l : List Value),
      evaluate fuel iterExpr env st = .ok (.arr l, st1) →
      10000 < l.length →
      evaluate (fuel + 1) (.each vname iterExpr body) env st =
        runEach (fun n e s => evaluate fuel n e s) vname body env
          (l.take 10000) .absent st1 ∧
      (l.take 10000).length = 10000) ∧
    (∀ (l : List Value) (fuel env : Nat) (st : State) (res : Value) (vname : String),
      (runEach (fun n e s => evaluate (fuel + 1) n e s) vname (.block []) env
          l res st).toOption.isSome = true) ∧
    (∀ (fuel env : Nat) (st : State),
      evaluate (fuel + 2) (.asStmt (.lit (.bool true)) (.block [])) env st =
        .error .maxIterations) ∧
    (∀ (fuel : Nat) (vname : String) (iterExpr body : Node) (env : Nat)
       (st st1 : State) (v : Value),
      evaluate fuel iterExpr env st = .ok (v, st1) →
      (∀ l, v ≠ .arr l) →
      evaluate (fuel + 1) (.each vname iterExpr body) env st =
        .error .eachRequiresArray) := by
  refine ⟨?_, ?_, ?_, ?_⟩
  · intro fuel vname iterExpr body env st st1 l h hlen
    constructor
    · simp only [evaluate, h, Bind.bind, Except.bind]
      have hmax : l.take maxIterations = l.take 10000 := rfl
      rw [hmax]
    · simp [List.length_take]
      omega
  · intro l
    induction l with
    | nil =>
      intro fuel env st res vname
      simp [runEach, Except.toOption]
    | cons item rest ih =>
      intro fuel env st res vname
      simp only [runEach]
      rw [show evaluate (fuel + 1) (Node.block []) st.frames.length
            (pushFrame st ⟨[(vname, item)], some env, none⟩) =
          .ok (.absent, pushFrame st ⟨[(vname, item)], some env, none⟩) from rfl]
      simp only [Bind.bind, Except.bind]
      exact ih fuel env _ _ vname
  · intro fuel env st
    show evaluate ((fuel + 1) + 1) _ env st = _
    simp only [evaluate]
    exact asLoop_true_limit fuel env maxIterations .absent st
  · intro fuel vname iterExpr body env st st1 v h hv
    simp only [evaluate, h, Bind.bind, Except.bind]

/-- Witness for C3's hypotheses: the 10001-element global array `xs` of
`stateLongArr` exceeds the ceiling, and the numeric iterable `5` is not an
array. -/
theorem claim_C3_witness :
    (evaluate 2 (.each "i" (.ident "xs") (.block [])) 0 stateLongArr =
        runEach (fun n e s => evaluate 1 n e s) "i" (.block []) 0
          ((List.replicate 10001 (Value.num 0)).take 10000) .absent stateLongArr ∧
      ((List.replicate 10001 (Value.num 0)).take 10000).length = 10000) ∧
    evaluate 2 (.each "i" (.lit (.num 5)) (.block [])) 0 initState =
      .error .eachRequiresArray :=
  ⟨claim_C3.1 1 "i" (.ident "xs") (.block []) 0 stateLongArr stateLongArr
      (List.replicate 10001 (Value.num 0)) rfl
      (by simp only [List.length_replicate]; omega),
   claim_C3.2.2.2 1 "i" (.lit (.num 5)) (.block []) 0 initState initState
      (.num 5) rfl (fun l h => Value.noConfusion h)⟩

/-- A walk with positive budget returns a binding found in the local
frame. -/
theorem envGetAux_found (st : State) (gas fid : Nat) (name : String) (v : Value)
    (hg : 0 < gas) (h : mapGet (getFrame st fid).vars name = some v) :
    envGetAux st gas fid name = .ok v := by
  cases gas with
  | zero => omega
  | succ g => simp [envGetAux, h]

/-- A set-walk with positive budget updates a plain frame that binds the
name. -/
theorem envSetAux_update (st : State) (gas fid : Nat) (name : String) (v : Value)
    (hg : 0 < gas) (hctx : (getFrame st fid).ctx = none)
    (hh : mapHas (getFrame st fid).vars name = true) :
    envSetAux st gas fid name v = .ok (frameDefine st fid name v) := by
  cases gas with
  | zero => omega
  | succ g => simp [envSetAux, hctx, hh]

/-- One iteration of `each (item in ...) sum = sum + item end` outside any
action: in the fresh loop frame (binding only `item`), `sum` resolves
through the chain to the enclosing frame and the assignment updates that
enclosing frame via `set`, returning the new sum. -/
theorem eachSum_step (fuel : Nat) (st : State) (gEnv : Nat) (q i : ℚ)
    (hlt : gEnv < st.frames.length)
    (hctx : (getFrame st gEnv).ctx = none)
    (hsum : mapGet (getFrame st gEnv).vars "sum" = some (.num q)) :
    evaluate (fuel + 4) sumLoopBody st.frames.length
        (pushFrame st ⟨[("item", .num i)], some gEnv, none⟩) =
      .ok (.num (q + i),
        frameDefine (pushFrame st ⟨[("item", .num i)], some gEnv, none⟩)
          gEnv "sum" (.num (q + i))) := by
  have hpos : 0 < st.frames.length := Nat.lt_of_le_of_lt (Nat.zero_le _) hlt
  set st1 := pushFrame st ⟨[("item", .num i)], some gEnv, none⟩ with hst1
  set fid := st.frames.length with hfid
  have hframe : getFrame st1 fid = ⟨[("item", .num i)], some gEnv, none⟩ :=
    getFrame_pushFrame_self st _
  have hgframe : getFrame st1 gEnv = getFrame st gEnv :=
    getFrame_pushFrame_lt st _ gEnv hlt
  have hgetSum : envGet st1 fid "sum" = .ok (.num q) := by
    show envGetAux st1 (fid + 1) fid "sum" = _
    simp only [envGetAux, hframe]
    rw [show mapGet [("item", Value.num i)] "sum" = none from rfl]
    exact envGetAux_found st1 fid gEnv "sum" _ hpos (by rw [hgframe]; exact hsum)
  have hgetItem : envGet st1 fid "item" = .ok (.num i) := by
    show envGetAux st1 (fid + 1) fid "item" = _
    simp only [envGetAux, hframe]
    rfl
  have hassign : nodeAssign st1 fid "sum" (.num (q + i)) =
      .ok (frameDefine st1 gEnv "sum" (.num (q + i))) := by
    simp only [nodeAssign, hframe]
    rw [show mapHas [("item", Value.num i)] "sum" = false from rfl]
    have hhas : envHas st1 gEnv "sum" = true := by
      show envHasAux st1 (gEnv + 1) gEnv "sum" = true
      simp only [envHasAux, hgframe]
      simp [mapHas, hsum]
    simp only [Bool.false_eq_true, if_false, hhas, if_true]
    show envSetAux st1 (fid + 1) fid "sum" (.num (q + i)) = _
    simp only [envSetAux, hframe]
    rw [show mapHas [("item", Value.num i)] "sum" = false from rfl]
    simp only [Bool.false_eq_true, if_false]
    exact envSetAux_update st1 fid gEnv "sum" _ hpos
      (by rw [hgframe]; exact hctx) (by rw [hgframe]; simp [mapHas, hsum])
  show evaluate (fuel + 3 + 1) _ _ _ = _
  simp only [sumLoopBody, evaluate, List.foldlM, Bind.bind, Except.bind]
  rw [hgetSum]
  simp only [Except.map]
  rw [hgetItem]
  simp only [Except.map]
  rw [show applyBinaryOp "+" (.num q) (.num i) = .ok (.num (q + i)) from by
    simp [applyBinaryOp, jsAdd, toPrimitive, jsToNumber]]
  simp only [Except.map]
  rw [hassign]
  rfl

/-- C4 (general part as a lemma): an each-loop `each (item in items)
sum = sum + item end` run against any enclosing plain frame that binds
`sum` to `q` accumulates the whole list into that enclosing frame's `sum`
binding (final value `foldl (+) q items`), evaluates to the last
iteration's value, and changes no other binding of the enclosing frame —
in particular `item`, bound only in the discarded per-iteration child
scopes, is not bound there afterwards. -/
theorem runEach_sum (fuel : Nat) :
    ∀ (items : List ℚ) (st : State) (gEnv : Nat) (q : ℚ) (res : Value),
      gEnv < st.frames.length →
      (getFrame st gEnv).ctx = none →
      mapGet (getFrame st gEnv).vars "sum" = some (.num q) →
      ∃ st' : State,
        runEach (fun n e s => evaluate (fuel + 4) n e s) "item" sumLoopBody
            gEnv (items.map Value.num) res st =
          .ok (if items.isEmpty then res else .num (items.foldl (· + ·) q), st') ∧
        mapGet (getFrame st' gEnv).vars "sum" =
          some (.num (items.foldl (· + ·) q)) ∧
        (getFrame st' gEnv).ctx = none ∧
        gEnv < st'.frames.length ∧
        ∀ x, x ≠ "sum" →
          mapGet (getFrame st' gEnv).vars x = mapGet (getFrame st gEnv).vars x := by
  intro items
  induction items with
  | nil =>
    intro st gEnv q res hlt hctx hsum
    exact ⟨st, rfl, by simpa using hsum, hctx, hlt, fun x _ => rfl⟩
  | cons i rest ih =>
    intro st gEnv q res hlt hctx hsum
    have hstep := eachSum_step fuel st gEnv q i hlt hctx hsum
    set st1 := pushFrame st ⟨[("item", .num i)], some gEnv, none⟩ with hst1
    set st2 := frameDefine st1 gEnv "sum" (.num (q + i)) with hst2
    have hlt1 : gEnv < st1.frames.length := by
      simp only [hst1, pushFrame, List.length_append, List.length_cons,
        List.length_nil]
      omega
    have hlt2 : gEnv < st2.frames.length := by
      simpa only [hst2, frameDefine, setFrame, List.length_set] using hlt1
    have hg2 : getFrame st2 gEnv =
        { getFrame st1 gEnv with
            vars := mapSet (getFrame st1 gEnv).vars "sum" (.num (q + i)) } := by
      simp only [hst2, frameDefine]
      exact getFrame_setFrame_self st1 gEnv _ hlt1
    have hgframe : getFrame st1 gEnv = getFrame st gEnv :=
      getFrame_pushFrame_lt st _ gEnv hlt
    have hctx2 : (getFrame st2 gEnv).ctx = none := by
      rw [hg2]; simpa [hgframe] using hctx
    have hsum2 : mapGet (getFrame st2 gEnv).vars "sum" = some (.num (q + i)) := by
      rw [hg2]; exact mapGet_mapSet_self _ _ _
    obtain ⟨st', hrun, hsumF, hctxF, hltF, hothersF⟩ :=
      ih st2 gEnv (q + i) (.num (q + i)) hlt2 hctx2 hsum2
    refine ⟨st', ?_, ?_, hctxF, hltF, ?_⟩
    · simp only [List.map_cons, runEach]
      rw [hstep]
      simp only [Bind.bind, Except.bind]
      rw [hrun]
      cases rest with
      | nil => simp
      | cons j rest' => simp [List.foldl_cons]
    · simpa [List.foldl_cons] using hsumF
    · intro x hx
      rw [hothersF x hx, hg2, mapGet_mapSet_ne _ _ _ _ hx, hgframe]

/-- C4: an each-loop outside an action runs every iteration in one fresh
child scope binding only the loop variable; assignments to a name bound in
the enclosing chain update the enclosing scope via `set` (for any list of
numbers the enclosing `sum` ends at its initial value plus the list's
values, folded in order, while no other enclosing binding changes), and the
loop variable is not bound in the enclosing scope after the loop.
Concretely, `sum = 0; each (item in [1,2,3]) sum = sum + item end` leaves
the global `sum` at 6 and leaves `item` unbound in the global scope. -/
theorem claim_C4 :
    (∀ (fuel : Nat) (items : List ℚ) (st : State) (gEnv : Nat) (q : ℚ)
       (res : Value),
      gEnv < st.frames.length →
      (getFrame st gEnv).ctx = none →
      mapGet (getFrame st gEnv).vars "sum" = some (.num q) →
      ∃ st' : State,
        runEach (fun n e s => evaluate (fuel + 4) n e s) "item" sumLoopBody
            gEnv (items.map Value.num) res st =
          .ok (if items.isEmpty then res else .num (items.foldl (· + ·) q), st') ∧
        mapGet (getFrame st' gEnv).vars "sum" =
          some (.num (items.foldl (· + ·) q)) ∧
        (getFrame st' gEnv).ctx = none ∧
        gEnv < st'.frames.length ∧
        ∀ x, x ≠ "sum" →
          mapGet (getFrame st' gEnv).vars x = mapGet (getFrame st gEnv).vars x) ∧
    runValue 20 progEachSum = .ok (.num 6) ∧
    globalAfter 20 progEachSum "sum" = some (.num 6) ∧
    globalAfter 20 progEachSum "item" = none := by
  refine ⟨fun fuel => runEach_sum fuel, ?_, ?_, rfl⟩
  · have h : runValue 20 progEachSum = .ok (.num (0 + 1 + 2 + 3)) := rfl
    rw [h]; norm_num
  · have h : globalAfter 20 progEachSum "sum" = some (.num (0 + 1 + 2 + 3)) := rfl
    rw [h]; norm_num

/-- Witness for C4's hypotheses: the loop over `[1, 2]` against the global
scope of `sampleSumState` (which binds `sum` to 0) completes
successfully. -/
theorem claim_C4_witness :
    (runEach (fun n e s => evaluate (0 + 4) n e s) "item" sumLoopBody 0
        (([1, 2] : List ℚ).map Value.num) .absent
        sampleSumState).toOption.isSome = true := by
  obtain ⟨st', hrun, _⟩ :=
    claim_C4.1 0 [1, 2] sampleSumState 0 0 .absent (by decide) rfl rfl
  rw [hrun]
  rfl

end Pluto
